import Mathlib

/-!
Verification development for the dynamic hardware prefetcher tuner
(user-space runtime in `src/main.c`, kernel variant in
`src/kernelmod/kernel_dpf.c`).

Each definition below is a shallow embedding of a function or code path of
the source; the comment above each one names the source location it embeds.
Machine integers are modelled as `Nat`/`Int` with explicit `% 2 ^ 64`
where overflow matters; the C `float` computation in `main.c` line 446 is
modelled over `ℚ` with explicit truncation toward zero (the C
float-to-int conversion), which agrees with the IEEE computation on the
inputs the theorems use.
-/

/-! ## PMU delta computation (`thread_start`, `src/main.c` lines 159-180) -/

/-- Modulus of the C `uint64_t` type. -/
def U64 : ℕ := 2 ^ 64

/-- C `uint64_t` subtraction `a - b`: wraps modulo `2 ^ 64`.  This embeds the
expression `pmu_new[i] - pmu_old[i]` of `src/main.c` line 174 (and the
`instructions_new - instructions_old` / `cpu_cycles_new - cpu_cycles_old`
expressions of lines 176-179). -/
def u64sub (a b : ℕ) : ℕ := (a % U64 + U64 - b % U64) % U64

/-- One tick's update of `tstate->pmu_result` for `tunealg != MAB`
(`src/main.c` lines 171-174): element-wise wrapped `uint64_t`
subtraction of the previous sample from the new sample.  No comparison
between old and new sample appears anywhere in the source: there is no
counter-reset handling. -/
def pmu_result_update (pmu_new pmu_old : List ℕ) : List ℕ :=
  List.zipWith u64sub pmu_new pmu_old

/-! ## DDR bandwidth target derivation (`main`, `src/main.c` lines 444-454) -/

/-- Sentinel for an unset `ddr_bw_target` (`src/main.c` line 33). -/
def DDR_BW_NOT_SET : ℤ := -1

/-- C conversion of the rational value `num / den` to `int`: truncation
toward zero (C11 6.3.1.4). -/
def float_trunc_to_int (num : ℤ) (den : ℕ) : ℤ :=
  num.sign * (num.natAbs / den : ℕ)

/-- The assignment `ddr_bw_target = dmi_get_bandwidth() * ddr_bw_auto_utilization`
of `src/main.c` line 446: the `int` result of `dmi_get_bandwidth()` is
multiplied by the `float` utilization factor and the product is converted
back to `int` (truncation toward zero).  The utilization factor is given
as an exact rational `utilNum / utilDen`; the default 0.7 is `7 / 10`.
The IEEE value of the literal `0.7f` differs from `7 / 10` by less than
`2 ^ (-24)`, which does not affect the truncation results the theorems
below use. -/
def dmi_auto_target (dmi utilNum : ℤ) (utilDen : ℕ) : ℤ :=
  float_trunc_to_int (dmi * utilNum) utilDen

/-- The whole startup derivation of `src/main.c` lines 445-454: if the user
never set a target (`ddr_bw_target == DDR_BW_NOT_SET`), derive it from DMI
and fail (`return -1`) only when the derived value equals `-1` exactly;
otherwise keep the user-supplied value.  `Except.error` models the
`return -1` startup-failure path. -/
def derive_ddr_bw_target (cur dmi utilNum : ℤ) (utilDen : ℕ) : Except Unit ℤ :=
  if cur = DDR_BW_NOT_SET then
    if dmi_auto_target dmi utilNum utilDen = -1 then Except.error ()
    else Except.ok (dmi_auto_target dmi utilNum utilDen)
  else Except.ok cur

/-! ## Weight parsing (`parse_weights`, `src/main.c` lines 263-306) -/

/-- Modelled from the spec: `MIN_PRIORITY` lives in the repository's
`common.h`, which is not under `src/`; the spec (§3 data model and §6 CLI
table) and the usage text of `src/main.c` lines 238-239 give the range
0..99. -/
def MIN_PRIORITY : ℤ := 0

/-- Modelled from the spec: `MAX_PRIORITY` lives in `common.h`, absent from
`src/`; spec and `src/main.c` usage text give 99. -/
def MAX_PRIORITY : ℤ := 99

/-- Modelled from the spec: `DEFAULT_PRIORITY` lives in `common.h`, absent
from `src/`; spec and `src/main.c` usage text (line 241) give 50. -/
def DEFAULT_PRIORITY : ℤ := 50

/-- Splitting a character list at commas (the `,` delimiter set of the
`strtok` calls of `src/main.c` lines 268 and 291). -/
def split_commas : List Char → List Char → List (List Char)
  | acc, [] => [acc.reverse]
  | acc, c :: cs =>
    if c = ',' then acc.reverse :: split_commas [] cs
    else split_commas (c :: acc) cs

/-- Tokenization performed by the `strtok(weights_args, ",")` loop of
`src/main.c` lines 268-291: split on commas; `strtok` never yields empty
tokens (consecutive, leading and trailing delimiters are skipped). -/
def strtok_commas (s : String) : List String :=
  ((split_commas [] s.toList).filter (· ≠ [])).map List.asString

/-- The `strtol(token, &endptr, 10)` call of `src/main.c` line 274 followed
by the `*endptr != '\0'` check of line 276: leading whitespace is skipped,
an optional sign and a digit run are consumed, and the parse is accepted
only when the whole token was consumed.  An empty token parses to 0 with
`endptr` at the terminator, so it is accepted (such a token cannot arise
from `strtok`).  Overflow clamping to `LONG_MAX` is not modelled (no claim
involves values of that size). -/
def strtol_full (s : String) : Option ℤ :=
  let cs := s.toList.dropWhile (·.isWhitespace)
  match cs with
  | [] => some 0
  | _ =>
    let signed : ℤ × List Char :=
      match cs with
      | '-' :: r => (-1, r)
      | '+' :: r => (1, r)
      | r => (1, r)
    let digits := signed.2
    if digits ≠ [] ∧ digits.all (·.isDigit) then
      some (signed.1 * (digits.foldl (fun acc c => acc * 10 + (c.toNat - 48)) 0 : ℕ))
    else none

/-- The token loop of `src/main.c` lines 270-299, counting down
`remaining = ACTIVE_THREADS - core_count`: the loop breaks as soon as
`core_count == ACTIVE_THREADS` (before looking at the next token), rejects
a non-numeric or out-of-range token, and pads missing trailing entries with
`DEFAULT_PRIORITY` once tokens run out.  `none` models the `return -1`
error; `some l` models success with `core_priority[0..active)` = `l`. -/
def parse_weights_go : List String → ℕ → Option (List ℤ)
  | _, 0 => some []
  | [], Nat.succ r => some (List.replicate (r + 1) DEFAULT_PRIORITY)
  | t :: ts, Nat.succ r =>
    match strtol_full t with
    | none => none
    | some p =>
      if p < MIN_PRIORITY ∨ MAX_PRIORITY < p then none
      else Option.map (fun l => p :: l) (parse_weights_go ts r)

/-- `parse_weights` of `src/main.c` lines 263-306, for a given number of
active cores (`ACTIVE_THREADS = core_last - core_first + 1`). -/
def parse_weights (weights_args : String) (active_threads : ℕ) : Option (List ℤ) :=
  parse_weights_go (strtok_commas weights_args) active_threads

/-! ## Command-line option dispatch (`main`, `src/main.c` lines 345-411) -/

/-- Outcome of one iteration of the option-decoding `switch` of
`src/main.c` lines 345-411. -/
inductive CliOutcome where
  | nextOption : CliOutcome
  | exitUsage : ℤ → CliOutcome
  | exitError : ℤ → CliOutcome
deriving DecidableEq

/-- The `switch (c)` of `src/main.c` lines 345-411 on the value returned by
`getopt_long`.  The recognised option characters continue the loop; the
cases `'?'` (returned by `getopt` for an unknown option) and `'h'` fall
through to the same `print_usage(); return 0;` (lines 402-406); any other
value hits the `default` branch and `return -1` (lines 407-410).  A
`return n` from `main` makes the process exit with status `n`. -/
def main_option_case (c : Char) : CliOutcome :=
  if c = 'c' ∨ c = 'd' ∨ c = 't' ∨ c = 'D' ∨ c = 'i' ∨ c = 'A' ∨ c = 'a' ∨
      c = 'l' ∨ c = 'w' then
    CliOutcome.nextOption
  else if c = '?' ∨ c = 'h' then CliOutcome.exitUsage 0
  else CliOutcome.exitError (-1)

/-! ## Core range validation and worker creation (`main`, lines 346-362, 479-483) -/

/-- The range check of `src/main.c` lines 357-361: the parsed `--core a-b`
range is rejected (with `return -1`) iff `core_last - core_first > MAX_THREADS`.
`MAX_THREADS` (a constant of the missing `common.h`) is kept as a
parameter; the claims hold for every value. -/
def core_range_rejected (core_first core_last maxThreads : ℤ) : Bool :=
  core_last - core_first > maxThreads

/-- Number of `gtinfo` worker entries initialised by the startup loop of
`src/main.c` lines 479-483: `for (tnum = 0; tnum <= core_last - core_first; tnum++)`
runs `core_last - core_first + 1` times. -/
def num_worker_entries (core_first core_last : ℤ) : ℤ :=
  core_last - core_first + 1

/-! ## MSR write discipline of a worker thread (`thread_start`, lines 99-217) -/

/-- Phase of `thread_start` in which an `msr_hwpf_write` call happens. -/
inductive MsrPhase where
  | initPhase : MsrPhase
  | tickApply : ℕ → MsrPhase
  | shutdownPhase : MsrPhase
deriving DecidableEq

/-- One `msr_hwpf_write` call: the phase it happens in and the `core_id` of
the thread performing it (each thread opens the MSR file of its own core,
`src/main.c` line 147). -/
structure MsrWriteEv where
  phase : MsrPhase
  core_id : ℕ
deriving DecidableEq

/-- The `CORE_IN_MODULE` macro of `src/main.c` line 30:
`(tstate->core_id - core_first) % 4`.  Threads are created with
`core_id = core_first + tnum` (line 480), so `core_id ≥ core_first` and
natural subtraction agrees with the C `int` subtraction. -/
def core_in_module (core_id core_first : ℕ) : ℕ := (core_id - core_first) % 4

/-- The `msr_hwpf_write` calls of the apply phase, `src/main.c` lines
201-210: one per tick, guarded by `CORE_IN_MODULE == 0 && hwpf_msr_dirty == 1`.
The per-tick `dirty` flag (set cross-thread by the tuner) is an input
stream; the value written (which depends on `tunealg`) is abstracted away,
since the claims concern only which thread writes and in which phase. -/
def tick_apply_writes (core_id core_first : ℕ) (dirty : List Bool) : List MsrWriteEv :=
  dirty.enum.filterMap fun p =>
    if core_in_module core_id core_first = 0 ∧ p.2 = true then
      some ⟨MsrPhase.tickApply p.1, core_id⟩
    else none

/-- The `msr_hwpf_write` calls after the tick loop exits on `quitflag`,
`src/main.c` lines 213-216: the code is `close(msr_file); logi(...); return 0;`
— it contains no MSR write at all. -/
def shutdown_msr_writes : List MsrWriteEv := []

/-- The `msr_hwpf_write` calls of `sigintHandler`, `src/main.c` lines
58-76: the handler frees the MAB buffers, sets `quitflag`, optionally calls
`rdt_mbm_reset()` and calls `exit(1)` — it contains no MSR write. -/
def sigint_msr_writes : List MsrWriteEv := []

/-- All `msr_hwpf_write` calls of one worker thread (`thread_start`,
`src/main.c` lines 99-217), in program order: the unconditional
initialization write of line 149 (performed by every thread, with no
`CORE_IN_MODULE` guard), then the guarded per-tick apply writes of lines
201-210, then whatever the loop-exit path performs (nothing). -/
def thread_start_msr_writes (core_id core_first : ℕ) (dirty : List Bool) :
    List MsrWriteEv :=
  ⟨MsrPhase.initPhase, core_id⟩ ::
    (tick_apply_writes core_id core_first dirty ++ shutdown_msr_writes)

/-! ## Kernel-module proc-file protocol (`src/kernelmod/kernel_dpf.c`) -/

/-- The message types of the `dpf_msg_header.type` dispatch of
`src/kernelmod/kernel_dpf.c` lines 379-404; `msgUnknown` stands for any
value hitting the `default` branch. -/
inductive DpfMsgType where
  | msgInitReq : DpfMsgType
  | msgCoreRange : DpfMsgType
  | msgCoreWeight : DpfMsgType
  | msgTuning : DpfMsgType
  | msgDdrbwSet : DpfMsgType
  | msgPmuRead : DpfMsgType
  | msgMsrRead : DpfMsgType
  | msgUnknown : ℕ → DpfMsgType
deriving DecidableEq

/-- A response installed in `proc_buffer` by a successful handler: every
handler builds a response whose header type echoes the request type
(`resp->header.type = DPF_MSG_...`). -/
structure DpfResponse where
  rtype : DpfMsgType
deriving DecidableEq

/-- State of the pseudo-file: `proc_buffer` either holds the response of
some processed request or is empty (`NULL`). -/
structure DpfProcState where
  resp : Option DpfResponse
deriving DecidableEq

/-- Linux `EINVAL` errno value. -/
def EINVAL : ℤ := 22

/-- Size of `struct dpf_msg_header { u32 type; u32 payload_size; }`. -/
def DPF_MSG_HEADER_SIZE : ℕ := 8

/-- Whether a request of the given type with the given validity flag is
successfully processed by its handler.  `msgMsrRead`/`msgPmuRead` reject an
out-of-range or disabled core (`kernel_dpf.c` lines 254-257 and 293-296)
before allocating a response; `reqValid` carries that check's outcome.
An unknown type hits the `default: ret = -EINVAL` branch (lines 401-403).
`kmalloc`/`copy_from_user` failures are environment nondeterminism and are
not modelled. -/
def dpf_dispatch_ok (t : DpfMsgType) (reqValid : Bool) : Bool :=
  match t with
  | DpfMsgType.msgUnknown _ => false
  | DpfMsgType.msgMsrRead => reqValid
  | DpfMsgType.msgPmuRead => reqValid
  | _ => true

/-- `dpf_proc_write` of `src/kernelmod/kernel_dpf.c` lines 344-410.
The size precheck (line 351) rejects the write before anything is touched.
Otherwise lines 356-360 free `proc_buffer` and zero `proc_buffer_size`
before the message is even dispatched; a successful handler then installs
its fresh response, while a failing dispatch (unknown type, invalid
request) leaves the buffer empty.  Returns the new state and the syscall
return value (`count` on success, a negative errno otherwise).
`maxMsgSize` is the `MAX_MSG_SIZE` cap from the missing `kernel_common.h`,
kept as a parameter. -/
def dpf_proc_write (maxMsgSize : ℕ) (st : DpfProcState) (t : DpfMsgType)
    (count : ℕ) (reqValid : Bool) : DpfProcState × ℤ :=
  if count < DPF_MSG_HEADER_SIZE ∨ maxMsgSize < count then (st, -EINVAL)
  else if dpf_dispatch_ok t reqValid then (⟨some ⟨t⟩⟩, (count : ℤ))
  else (⟨none⟩, -EINVAL)

/-- `proc_read` of `src/kernelmod/kernel_dpf.c` lines 326-342: yields the
current `proc_buffer` content when reading from offset 0 with a buffer at
least as large as the stored response, and nothing (`return 0`) when the
offset is positive, the buffer is `NULL`, or the user buffer is too small. -/
def proc_read (st : DpfProcState) (pos count respSize : ℕ) : Option DpfResponse :=
  if 0 < pos ∨ st.resp = none ∨ count < respSize then none else st.resp

/-! ## One tick of the synchronized control loop (`thread_start`, lines 155-211)

The per-tick rendezvous of `src/main.c` is modelled as an interleaving
transition system over one tick: each of the `n` worker threads executes
the atomic actions of its tick body in program order, scheduled in an
arbitrary order, with the shared counter `syncflag` starting at 0 (the
value the previous tick's release left it at).  Busy-wait loops are
modelled as blocking guards: a spinning iteration changes no state, so a
wait action fires exactly when its exit condition holds. -/

/-- The atomic actions of one tick of `thread_start` (`src/main.c` lines
155-211): publish the PMU deltas (lines 159-180), atomically increment
`syncflag` (line 182), the primary's busy-wait `while (syncflag < ACTIVE_THREADS)`
(line 187), the `calculate_settings()` tuner invocation (line 189), the
release `syncflag = 0` (line 192), the module-lead busy-wait
`while (syncflag != 0)` (line 196), and the apply phase (lines 201-210). -/
inductive TickAct where
  | sample : TickAct
  | incSync : TickAct
  | waitAll : TickAct
  | decideTuner : TickAct
  | resetSync : TickAct
  | waitRelease : TickAct
  | applyMsr : TickAct
deriving DecidableEq

/-- The tick body of the worker with thread index `v` (so
`core_id = core_first + v` and `CORE_IN_MODULE = v % 4`): the primary
(`core_id == core_first`, i.e. `v = 0`, itself a module-lead) samples,
increments, waits for all arrivals, decides, releases, then runs the apply
phase; a non-primary module-lead (`v % 4 == 0`) samples, increments,
waits for the release, then applies; every other worker samples,
increments and runs free (`src/main.c` lines 184-210). -/
def tick_prog (v : ℕ) : List TickAct :=
  if v = 0 then
    [TickAct.sample, TickAct.incSync, TickAct.waitAll, TickAct.decideTuner,
      TickAct.resetSync, TickAct.applyMsr]
  else if v % 4 = 0 then
    [TickAct.sample, TickAct.incSync, TickAct.waitRelease, TickAct.applyMsr]
  else
    [TickAct.sample, TickAct.incSync]

/-- Shared state of one tick: the value of the `volatile int syncflag`
counter and, per thread, how many actions of its tick body have executed. -/
structure TickCfg (n : ℕ) where
  syncflag : ℕ
  pc : Fin n → ℕ
deriving DecidableEq

/-- One interleaving step: thread `i` executes the next action of its tick
body.  `incSync` is the `atomic_fetch_add(&syncflag, 1)` of line 182;
`waitAll` fires only when `syncflag >= n` (the exit condition of the
primary's spin at line 187, with `n = ACTIVE_THREADS`); `resetSync` is the
store `syncflag = 0` of line 192; `waitRelease` fires only when
`syncflag == 0` (exit condition of the lead's spin at line 196). -/
def tick_step {n : ℕ} (c : TickCfg n) (i : Fin n) : Option (TickCfg n) :=
  match (tick_prog i.val).get? (c.pc i) with
  | none => none
  | some a =>
    let pc2 := Function.update c.pc i (c.pc i + 1)
    match a with
    | TickAct.sample => some ⟨c.syncflag, pc2⟩
    | TickAct.incSync => some ⟨c.syncflag + 1, pc2⟩
    | TickAct.waitAll => if n ≤ c.syncflag then some ⟨c.syncflag, pc2⟩ else none
    | TickAct.decideTuner => some ⟨c.syncflag, pc2⟩
    | TickAct.resetSync => some ⟨0, pc2⟩
    | TickAct.waitRelease => if c.syncflag = 0 then some ⟨c.syncflag, pc2⟩ else none
    | TickAct.applyMsr => some ⟨c.syncflag, pc2⟩

/-- Run a schedule (a list of thread indices, each executing its next
action) from a configuration; `none` when some scheduled step is blocked
or its thread is already done. -/
def tick_run {n : ℕ} (c : TickCfg n) : List (Fin n) → Option (TickCfg n)
  | [] => some c
  | i :: rest =>
    match tick_step c i with
    | none => none
    | some c2 => tick_run c2 rest

/-- Start of a tick: `syncflag = 0` and no thread has executed anything. -/
def tick_init (n : ℕ) : TickCfg n := ⟨0, fun _ => 0⟩

/-- Program counter of the primary worker (thread 0, pinned to
`core_first`); 0 when there are no threads. -/
def primPc {n : ℕ} (c : TickCfg n) : ℕ :=
  if h : 0 < n then c.pc ⟨0, h⟩ else 0

/-- Number of threads whose `incSync` has executed (program position ≥ 2). -/
def incsCount {n : ℕ} (pc : Fin n → ℕ) : ℕ :=
  (Finset.univ.filter fun i : Fin n => 2 ≤ pc i).card

/-- Inductive invariant of the tick transition system: program counters
stay in range; until the release, `syncflag` counts exactly the executed
increments; after the release `syncflag` is 0; once the primary has passed
its arrival wait, every thread has sampled and incremented; and a
module-lead passes its release wait only after the primary's release. -/
def TickInv {n : ℕ} (c : TickCfg n) : Prop :=
  (∀ i : Fin n, c.pc i ≤ (tick_prog i.val).length) ∧
  (primPc c ≤ 4 → c.syncflag = incsCount c.pc) ∧
  (5 ≤ primPc c → c.syncflag = 0) ∧
  (3 ≤ primPc c → ∀ i : Fin n, 2 ≤ c.pc i) ∧
  (∀ i : Fin n, i.val ≠ 0 → i.val % 4 = 0 → 3 ≤ c.pc i → 5 ≤ primPc c)

/-- A concrete complete schedule for five workers (0 primary, 4 a
module-lead, 1-3 free): all five sample and increment, the primary passes
its wait, decides, releases, the lead passes its wait, both apply. -/
def tick_demo_schedule : List (Fin 5) :=
  [0, 0, 1, 1, 2, 2, 3, 3, 4, 4, 0, 0, 0, 4, 0, 4]

/-- The configuration reached by `tick_demo_schedule`. -/
def tick_demo_final : TickCfg 5 :=
  (tick_run (tick_init 5) tick_demo_schedule).getD (tick_init 5)

/-! ## Theorems -/

/-- C1 counterexample.  The claim states that a worker whose
`(core_id - core_first) % 4` is nonzero performs no `msr_hwpf_write` call
during its whole execution, including initialization.  The worker on core 1
(with `core_first = 0`) has module position 1, yet its execution trace
contains the unconditional initialization write of `src/main.c` line 149. -/
theorem nonlead_thread_writes_msr :
    core_in_module 1 0 = 1 ∧
    thread_start_msr_writes 1 0 [] = [⟨MsrPhase.initPhase, 1⟩] ∧
    thread_start_msr_writes 1 0 [] ≠ [] := by
  decide

/-- C1 amended.  Every `msr_hwpf_write` of the tick loop's apply phase is
performed by a module-lead (`(core_id - core_first) % 4 = 0`); a worker on
a non-lead core performs exactly one `msr_hwpf_write` over its whole
execution, namely the unconditional initialization write of `src/main.c`
line 149, and none afterwards. -/
theorem nonlead_thread_writes_only_init (core_id core_first : ℕ)
    (dirty : List Bool) :
    (∀ ev ∈ tick_apply_writes core_id core_first dirty,
      core_in_module core_id core_first = 0 ∧
      ∃ k, ev.phase = MsrPhase.tickApply k) ∧
    (core_in_module core_id core_first ≠ 0 →
      thread_start_msr_writes core_id core_first dirty =
        [⟨MsrPhase.initPhase, core_id⟩]) := by
  constructor
  · intro ev hev
    simp only [tick_apply_writes, List.mem_filterMap] at hev
    obtain ⟨p, _, hp⟩ := hev
    by_cases hc : core_in_module core_id core_first = 0 ∧ p.2 = true
    · rw [if_pos hc] at hp
      obtain ⟨rfl⟩ := Option.some.inj hp
      exact ⟨hc.1, p.1, rfl⟩
    · rw [if_neg hc] at hp
      exact absurd hp (Option.some_ne_none _).symm
  · intro hne
    have hempty : tick_apply_writes core_id core_first dirty = [] := by
      simp only [tick_apply_writes, List.filterMap_eq_nil_iff]
      intro p _
      rw [if_neg]
      intro hc
      exact hne hc.1
    simp [thread_start_msr_writes, hempty, shutdown_msr_writes]

/-- C1 witness: the worker on core 2 (module position 2 with
`core_first = 0`) performs only the initialization write even across ticks
whose dirty flag is set. -/
theorem nonlead_thread_writes_only_init_witness :
    thread_start_msr_writes 2 0 [true, false, true] =
      [⟨MsrPhase.initPhase, 2⟩] :=
  (nonlead_thread_writes_only_init 2 0 [true, false, true]).2 (by decide)

/-- C3 counterexample.  The claim states that an apparent counter decrease
is treated as a reset and a zero delta is published.  With previous sample
5 and new sample 3, the code of `src/main.c` line 174 publishes the
wrapped `uint64_t` difference `2 ^ 64 - 2`, not zero. -/
theorem pmu_delta_wraps_on_decrease :
    pmu_result_update [3] [5] = [U64 - 2] ∧ U64 - 2 ≠ 0 ∧
    pmu_result_update [3] [5] ≠ [0] := by
  refine ⟨by decide, by decide, by decide⟩

/-- C3 amended.  The published delta is the wrapped 64-bit difference
`(new - old) mod 2 ^ 64`: when the counter did not decrease (the monotone
case) this equals the true non-negative difference `new - old`, but on an
apparent decrease the worker publishes `2 ^ 64 - (old - new)` — a wrapped
subtraction result, not a zero delta. -/
theorem pmu_delta_is_wrapped_difference (a b : ℕ) (ha : a < U64) (hb : b < U64) :
    (b ≤ a → u64sub a b = a - b) ∧ (a < b → u64sub a b = U64 - (b - a)) := by
  have ha2 : a < 2 ^ 64 := by simpa [U64] using ha
  have hb2 : b < 2 ^ 64 := by simpa [U64] using hb
  constructor
  · intro hba
    simp only [u64sub, U64]
    omega
  · intro hab
    simp only [u64sub, U64]
    omega

/-- C3 witness: at `new = 7, old = 3` the published delta is the true
difference 4; at `new = 3, old = 5` it is the wrapped value. -/
theorem pmu_delta_is_wrapped_difference_witness :
    u64sub 7 3 = 7 - 3 ∧ u64sub 3 5 = U64 - (5 - 3) :=
  ⟨(pmu_delta_is_wrapped_difference 7 3 (by decide) (by decide)).1 (by decide),
   (pmu_delta_is_wrapped_difference 3 5 (by decide) (by decide)).2 (by decide)⟩

/-- C4: the shutdown paths perform no MSR restore write at all.  The
loop-exit path of `src/main.c` lines 213-216 only closes the MSR file, the
SIGINT handler (lines 58-76) frees tuner buffers and exits, and a full
thread trace (initialization plus five dirty ticks on a module-lead)
contains zero shutdown-phase writes — the claim requires exactly one. -/
theorem shutdown_performs_no_msr_restore :
    shutdown_msr_writes = [] ∧ sigint_msr_writes = [] ∧
    (thread_start_msr_writes 0 0 [true, true, true, true, true]).countP
      (fun ev => ev.phase == MsrPhase.shutdownPhase) = 0 ∧
    (0 : ℕ) ≠ 1 := by
  refine ⟨rfl, rfl, by decide, by decide⟩

/-- C5: with the default utilization factor 0.7, a DMI failure
(`dmi_get_bandwidth() == -1`) yields `(int)(-1 * 0.7) = 0`, which the
`== -1` guard of `src/main.c` line 449 does not catch: startup proceeds
with the non-positive target 0 instead of failing.  (With utilization
exactly 1 the guard would trigger, showing the guard's intent.) -/
theorem ddr_bw_dmi_failure_slips_through :
    dmi_auto_target (-1) 7 10 = 0 ∧
    derive_ddr_bw_target DDR_BW_NOT_SET (-1) 7 10 = Except.ok 0 ∧
    ¬ (0 : ℤ) > 0 ∧
    derive_ddr_bw_target DDR_BW_NOT_SET (-1) 1 1 = Except.error () := by
  refine ⟨by decide, by rfl, by decide, by rfl⟩

/-- C6: `--weight "10,20,30,40"` yields `[10,20,30,40]` with four active
cores, `[10,20,30]` with three, and `[10,20,30,40,50,50]` with six; an
out-of-range value (200) or a non-numeric token (`2x`) among the assigned
entries is rejected; the spec scenario S6 (`--weight 99,10` with four
cores) pads to `[99,10,50,50]`. -/
theorem parse_weights_examples :
    parse_weights "10,20,30,40" 4 = some [10, 20, 30, 40] ∧
    parse_weights "10,20,30,40" 3 = some [10, 20, 30] ∧
    parse_weights "10,20,30,40" 6 = some [10, 20, 30, 40, 50, 50] ∧
    parse_weights "10,200,30" 3 = none ∧
    parse_weights "10,2x,30" 3 = none ∧
    parse_weights "99,10" 4 = some [99, 10, 50, 50] := by
  refine ⟨by decide, by decide, by decide, by decide, by decide, by decide⟩

/-- C8 counterexample.  An unknown option makes `getopt_long` return `'?'`,
which falls into the shared `case '?': case 'h':` of `src/main.c` lines
402-406: the program prints usage and `main` returns 0, so the exit status
is 0, not the claimed 2. -/
theorem unknown_option_exits_zero :
    main_option_case '?' = CliOutcome.exitUsage 0 ∧
    CliOutcome.exitUsage 0 ≠ CliOutcome.exitUsage 2 := by
  refine ⟨by decide, by decide⟩

/-- C8 amended.  An invocation with an unknown option prints the usage text
and exits with status 0 — exactly the same outcome as `--help`. -/
theorem unknown_option_same_as_help :
    main_option_case '?' = CliOutcome.exitUsage 0 ∧
    main_option_case 'h' = CliOutcome.exitUsage 0 ∧
    main_option_case '?' = main_option_case 'h' := by
  refine ⟨by decide, by decide, by decide⟩

/-- C9: the `--core` validation of `src/main.c` lines 357-361 rejects a
range only when `core_last - core_first` strictly exceeds `MAX_THREADS`,
so the range `a .. a + MAX_THREADS` (containing `MAX_THREADS + 1` cores)
passes, and the startup loop of lines 479-483 then initialises
`MAX_THREADS + 1` worker entries — one more than the `MAX_THREADS`-sized
`gtinfo` and `core_priority` arrays hold. -/
theorem core_range_off_by_one (a maxThreads : ℤ) :
    core_range_rejected a (a + maxThreads) maxThreads = false ∧
    num_worker_entries a (a + maxThreads) = maxThreads + 1 ∧
    maxThreads < maxThreads + 1 := by
  refine ⟨?_, ?_, by omega⟩
  · simp only [core_range_rejected, decide_eq_false_iff_not]
    omega
  · simp only [num_worker_entries]
    ring

/-- C7 counterexample.  After a successful `INIT` request, a write carrying
an unknown message type reaches the dispatch of `dpf_proc_write`
(`src/kernelmod/kernel_dpf.c` lines 344-410), whose lines 356-360 free the
stored response before the type is even examined: the previous `INIT`
response is discarded and a subsequent read yields nothing — the claim
says it would still be readable. -/
theorem failed_write_discards_response :
    (dpf_proc_write 1024 ⟨none⟩ DpfMsgType.msgInitReq 8 true).1 =
      ⟨some ⟨DpfMsgType.msgInitReq⟩⟩ ∧
    dpf_proc_write 1024 ⟨some ⟨DpfMsgType.msgInitReq⟩⟩
      (DpfMsgType.msgUnknown 99) 8 true = (⟨none⟩, -EINVAL) ∧
    proc_read ⟨none⟩ 0 1024 8 = none ∧
    (none : Option DpfResponse) ≠ some ⟨DpfMsgType.msgInitReq⟩ := by
  refine ⟨by rfl, by rfl, by rfl, by decide⟩

/-- C7 amended.  A write rejected by the size precheck (shorter than the
message header or above the `MAX_MSG_SIZE` cap) leaves the stored response
untouched; any write that reaches dispatch first discards it, so a failing
request (unknown type, or an invalid `MSR_READ`/`PMU_READ`) leaves the
pseudo-file with nothing to read, while a successfully processed request
installs its own response, which a read then yields. -/
theorem dpf_proc_write_response_discipline (maxMsgSize : ℕ) (st : DpfProcState)
    (t : DpfMsgType) (count : ℕ) (reqValid : Bool) :
    (count < DPF_MSG_HEADER_SIZE ∨ maxMsgSize < count →
      dpf_proc_write maxMsgSize st t count reqValid = (st, -EINVAL)) ∧
    (DPF_MSG_HEADER_SIZE ≤ count → count ≤ maxMsgSize →
      dpf_dispatch_ok t reqValid = false →
      dpf_proc_write maxMsgSize st t count reqValid = (⟨none⟩, -EINVAL)) ∧
    (DPF_MSG_HEADER_SIZE ≤ count → count ≤ maxMsgSize →
      dpf_dispatch_ok t reqValid = true →
      dpf_proc_write maxMsgSize st t count reqValid = (⟨some ⟨t⟩⟩, (count : ℤ)) ∧
      proc_read ⟨some ⟨t⟩⟩ 0 count 0 = some ⟨t⟩) := by
  refine ⟨?_, ?_, ?_⟩
  · intro h
    rw [dpf_proc_write, if_pos h]
  · intro h1 h2 hfail
    rw [dpf_proc_write, if_neg (by omega), hfail]
    rfl
  · intro h1 h2 hok
    constructor
    · rw [dpf_proc_write, if_neg (by omega), hok]
      rfl
    · rw [proc_read, if_neg (by simp)]

/-- C7 witness: with cap 1024, a valid-size write of an unknown type over
a stored `TUNING` response empties the store, an undersized write
preserves it, and a successful `DDRBW_SET` write installs its response. -/
theorem dpf_proc_write_response_discipline_witness :
    dpf_proc_write 1024 ⟨some ⟨DpfMsgType.msgTuning⟩⟩ (DpfMsgType.msgUnknown 5)
      8 true = (⟨none⟩, -EINVAL) ∧
    dpf_proc_write 1024 ⟨some ⟨DpfMsgType.msgTuning⟩⟩ (DpfMsgType.msgUnknown 5)
      4 true = (⟨some ⟨DpfMsgType.msgTuning⟩⟩, -EINVAL) ∧
    dpf_proc_write 1024 ⟨none⟩ DpfMsgType.msgDdrbwSet 12 true =
      (⟨some ⟨DpfMsgType.msgDdrbwSet⟩⟩, (12 : ℤ)) :=
  ⟨(dpf_proc_write_response_discipline 1024 ⟨some ⟨DpfMsgType.msgTuning⟩⟩
      (DpfMsgType.msgUnknown 5) 8 true).2.1 (by decide) (by decide) (by decide),
   (dpf_proc_write_response_discipline 1024 ⟨some ⟨DpfMsgType.msgTuning⟩⟩
      (DpfMsgType.msgUnknown 5) 4 true).1 (by decide),
   ((dpf_proc_write_response_discipline 1024 ⟨none⟩ DpfMsgType.msgDdrbwSet
      12 true).2.2 (by decide) (by decide) (by decide)).1⟩

/-- C10: the token loop of `parse_weights` stops as soon as
`ACTIVE_THREADS` priorities have been assigned (`src/main.c` lines
271-272), before looking at the next token, so surplus entries — valid or
not — are never examined and the result is exactly that of the truncated
list; concretely, `"10,20,zz,##"` with two active cores parses
successfully to `[10, 20]` although `zz` and `##` are not numbers. -/
theorem parse_weights_ignores_surplus (tokens extra : List String)
    (active : ℕ) (h : tokens.length = active) :
    parse_weights_go (tokens ++ extra) active = parse_weights_go tokens active ∧
    parse_weights "10,20,zz,##" 2 = some [10, 20] := by
  refine ⟨?_, by decide⟩
  induction tokens generalizing active with
  | nil =>
    simp only [List.length_nil] at h
    subst h
    cases extra <;> rfl
  | cons t ts ih =>
    simp only [List.length_cons] at h
    subst h
    simp only [List.cons_append, parse_weights_go]
    cases strtol_full t with
    | none => rfl
    | some p =>
      by_cases hp : p < MIN_PRIORITY ∨ MAX_PRIORITY < p
      · simp only [if_pos hp]
      · simp only [if_neg hp]
        congr 1
        exact ih ts.length rfl

/-- C10 witness: appending the garbage token `"zz"` after one assigned
token does not change the parse with one active core. -/
theorem parse_weights_ignores_surplus_witness :
    parse_weights_go (["10"] ++ ["zz"]) 1 = parse_weights_go ["10"] 1 ∧
    parse_weights "10,20,zz,##" 2 = some [10, 20] :=
  ⟨(parse_weights_ignores_surplus ["10"] ["zz"] 1 (by decide)).1,
   (parse_weights_ignores_surplus ["10"] ["zz"] 1 (by decide)).2⟩

/-- The primary's program counter is thread 0's program counter. -/
theorem primPc_eq_pc {n : ℕ} (c : TickCfg n) (i : Fin n) (hi : i.val = 0) :
    primPc c = c.pc i := by
  have hn : 0 < n := i.pos
  have : i = ⟨0, hn⟩ := Fin.ext hi
  subst this
  simp [primPc, hn]

/-- Updating thread 0's program counter updates `primPc`. -/
theorem primPc_update_self {n : ℕ} (c : TickCfg n) (j : Fin n) (hj : j.val = 0)
    (f v : ℕ) :
    primPc (⟨f, Function.update c.pc j v⟩ : TickCfg n) = v := by
  have hn : 0 < n := j.pos
  have : j = ⟨0, hn⟩ := Fin.ext hj
  subst this
  simp [primPc, hn]

/-- Updating another thread's program counter leaves `primPc` unchanged. -/
theorem primPc_update_other {n : ℕ} (c : TickCfg n) (j : Fin n) (hj : j.val ≠ 0)
    (f v : ℕ) :
    primPc (⟨f, Function.update c.pc j v⟩ : TickCfg n) = primPc c := by
  unfold primPc
  by_cases hn : 0 < n
  · simp only [dif_pos hn]
    apply Function.update_noteq
    intro he
    exact hj (he ▸ rfl)
  · simp [hn]

/-- An update that does not cross program position 2 keeps the increment
count. -/
theorem incsCount_update_same {n : ℕ} (pc : Fin n → ℕ) (j : Fin n) (v : ℕ)
    (h : 2 ≤ pc j ↔ 2 ≤ v) :
    incsCount (Function.update pc j v) = incsCount pc := by
  unfold incsCount
  congr 1
  apply Finset.filter_congr
  intro i _
  by_cases hij : i = j
  · subst hij
    simp [Function.update_same, h]
  · simp [Function.update_noteq hij]

/-- An update crossing program position 2 raises the increment count by
one. -/
theorem incsCount_update_cross {n : ℕ} (pc : Fin n → ℕ) (j : Fin n) (v : ℕ)
    (h1 : pc j < 2) (h2 : 2 ≤ v) :
    incsCount (Function.update pc j v) = incsCount pc + 1 := by
  unfold incsCount
  have hset : (Finset.univ.filter fun i : Fin n => 2 ≤ Function.update pc j v i) =
      insert j (Finset.univ.filter fun i : Fin n => 2 ≤ pc i) := by
    ext i
    by_cases hij : i = j
    · subst hij
      simp [Function.update_same, h2]
    · simp [Function.update_noteq hij, hij]
  rw [hset, Finset.card_insert_of_not_mem (by simp; omega)]

/-- At most `n` threads have incremented. -/
theorem incsCount_le {n : ℕ} (pc : Fin n → ℕ) : incsCount pc ≤ n := by
  unfold incsCount
  calc (Finset.univ.filter fun i : Fin n => 2 ≤ pc i).card
      ≤ (Finset.univ : Finset (Fin n)).card := Finset.card_filter_le _ _
    _ = n := Finset.card_fin n

/-- If all `n` increments happened, every thread is past position 2. -/
theorem incsCount_full {n : ℕ} (pc : Fin n → ℕ) (h : n ≤ incsCount pc) :
    ∀ i : Fin n, 2 ≤ pc i := by
  intro i
  have hcard : (Finset.univ.filter fun i : Fin n => 2 ≤ pc i).card =
      Fintype.card (Fin n) := by
    have := incsCount_le pc
    unfold incsCount at *
    simp only [Fintype.card_fin]
    omega
  have huniv := Finset.eq_univ_of_card _ hcard
  have : i ∈ Finset.univ.filter fun i : Fin n => 2 ≤ pc i := by
    rw [huniv]; exact Finset.mem_univ i
  exact (Finset.mem_filter.mp this).2

/-- A thread past position 2 contributes to the increment count. -/
theorem incsCount_pos {n : ℕ} (pc : Fin n → ℕ) (j : Fin n) (h : 2 ≤ pc j) :
    1 ≤ incsCount pc := by
  unfold incsCount
  apply Finset.card_pos.mpr
  exact ⟨j, by simp [h]⟩

/-- Which action sits at which position of which thread's tick body. -/
theorem tick_prog_get_facts (v k : ℕ) (a : TickAct)
    (h : (tick_prog v).get? k = some a) :
    (a = TickAct.sample → k = 0) ∧
    (a = TickAct.incSync → k = 1) ∧
    (a = TickAct.waitAll → v = 0 ∧ k = 2) ∧
    (a = TickAct.decideTuner → v = 0 ∧ k = 3) ∧
    (a = TickAct.resetSync → v = 0 ∧ k = 4) ∧
    (a = TickAct.waitRelease → v ≠ 0 ∧ v % 4 = 0 ∧ k = 2) ∧
    (a = TickAct.applyMsr → (v = 0 ∧ k = 5) ∨ (v ≠ 0 ∧ v % 4 = 0 ∧ k = 3)) := by
  unfold tick_prog at h
  by_cases hv : v = 0
  · rw [if_pos hv] at h
    subst hv
    rcases k with _ | _ | _ | _ | _ | _ | k <;> simp at h <;> subst h <;> simp
  · rw [if_neg hv] at h
    by_cases hv4 : v % 4 = 0
    · rw [if_pos hv4] at h
      rcases k with _ | _ | _ | _ | k <;> simp at h <;> subst h <;>
        simp [hv, hv4]
    · rw [if_neg hv4] at h
      rcases k with _ | _ | k <;> simp at h <;> subst h <;> simp

/-- An executable position is inside the program. -/
theorem tick_prog_get_lt {v k : ℕ} {a : TickAct}
    (h : (tick_prog v).get? k = some a) : k < (tick_prog v).length :=
  (List.get?_eq_some.mp h).1

/-- Every step of the tick transition system preserves the invariant. -/
theorem tick_step_inv {n : ℕ} {c c2 : TickCfg n} {j : Fin n}
    (inv : TickInv c) (h : tick_step c j = some c2) : TickInv c2 := by
  obtain ⟨inv1, inv2, inv3, inv4, inv5⟩ := inv
  cases hget : (tick_prog j.val).get? (c.pc j) with
  | none =>
    unfold tick_step at h
    rw [hget] at h
    exact Option.noConfusion h
  | some a =>
    have hlt := tick_prog_get_lt hget
    have hfacts := tick_prog_get_facts _ _ _ hget
    have hpcLe : ∀ i : Fin n,
        Function.update c.pc j (c.pc j + 1) i ≤ (tick_prog i.val).length := by
      intro i
      by_cases hij : i = j
      · subst hij; simp only [Function.update_same]; omega
      · simp only [Function.update_noteq hij]; exact inv1 i
    cases a with
    | sample =>
      have hk : c.pc j = 0 := hfacts.1 rfl
      simp only [tick_step, hget, Option.some.injEq] at h
      subst h
      refine ⟨hpcLe, ?_, ?_, ?_, ?_⟩
      · intro hP
        dsimp only at *
        rw [incsCount_update_same c.pc j _ (by omega)]
        by_cases hj : j.val = 0
        · exact inv2 (by rw [primPc_eq_pc c j hj]; omega)
        · rw [primPc_update_other c j hj] at hP
          exact inv2 hP
      · intro hP
        dsimp only at *
        by_cases hj : j.val = 0
        · rw [primPc_update_self c j hj] at hP
          omega
        · rw [primPc_update_other c j hj] at hP
          exact inv3 hP
      · intro hP i
        dsimp only at *
        by_cases hj : j.val = 0
        · rw [primPc_update_self c j hj] at hP
          omega
        · rw [primPc_update_other c j hj] at hP
          have := inv4 hP j
          omega
      · intro i hi0 hi4 hpi
        dsimp only at *
        by_cases hij : i = j
        · subst hij
          rw [Function.update_same] at hpi
          omega
        · rw [Function.update_noteq hij] at hpi
          have h5 := inv5 i hi0 hi4 hpi
          by_cases hj : j.val = 0
          · rw [primPc_eq_pc c j hj] at h5
            omega
          · rw [primPc_update_other c j hj]
            exact h5
    | incSync =>
      have hk : c.pc j = 1 := hfacts.2.1 rfl
      simp only [tick_step, hget, Option.some.injEq] at h
      subst h
      have hPold : primPc c ≤ 2 := by
        by_cases hj : j.val = 0
        · rw [primPc_eq_pc c j hj]; omega
        · by_contra hgt
          have := inv4 (by omega) j
          omega
      refine ⟨hpcLe, ?_, ?_, ?_, ?_⟩
      · intro hP
        dsimp only at *
        rw [incsCount_update_cross c.pc j _ (by omega) (by omega)]
        rw [inv2 (by omega)]
      · intro hP
        dsimp only at *
        by_cases hj : j.val = 0
        · rw [primPc_update_self c j hj] at hP
          omega
        · rw [primPc_update_other c j hj] at hP
          omega
      · intro hP
        dsimp only at *
        by_cases hj : j.val = 0
        · rw [primPc_update_self c j hj] at hP
          omega
        · rw [primPc_update_other c j hj] at hP
          omega
      · intro i hi0 hi4 hpi
        dsimp only at *
        by_cases hij : i = j
        · subst hij
          rw [Function.update_same] at hpi
          omega
        · rw [Function.update_noteq hij] at hpi
          have h5 := inv5 i hi0 hi4 hpi
          omega
    | waitAll =>
      have hj : j.val = 0 := (hfacts.2.2.1 rfl).1
      have hk : c.pc j = 2 := (hfacts.2.2.1 rfl).2
      have hPold : primPc c = 2 := by rw [primPc_eq_pc c j hj]; omega
      simp only [tick_step, hget] at h
      by_cases hg : n ≤ c.syncflag
      · rw [if_pos hg, Option.some.injEq] at h
        subst h
        have hall : ∀ i : Fin n, 2 ≤ c.pc i := by
          apply incsCount_full
          rw [← inv2 (by omega)]
          exact hg
        refine ⟨hpcLe, ?_, ?_, ?_, ?_⟩
        · intro _
          dsimp only at *
          rw [incsCount_update_same c.pc j _ (by omega)]
          exact inv2 (by omega)
        · intro hP
          dsimp only at *
          rw [primPc_update_self c j hj] at hP
          omega
        · intro _ i
          dsimp only at *
          by_cases hij : i = j
          · subst hij; rw [Function.update_same]; omega
          · rw [Function.update_noteq hij]; exact hall i
        · intro i hi0 hi4 hpi
          dsimp only at *
          have hij : i ≠ j := by
            intro he; exact hi0 (he ▸ hj)
          rw [Function.update_noteq hij] at hpi
          have h5 := inv5 i hi0 hi4 hpi
          omega
      · rw [if_neg hg] at h
        exact absurd h (by simp)
    | decideTuner =>
      have hj : j.val = 0 := (hfacts.2.2.2.1 rfl).1
      have hk : c.pc j = 3 := (hfacts.2.2.2.1 rfl).2
      have hPold : primPc c = 3 := by rw [primPc_eq_pc c j hj]; omega
      simp only [tick_step, hget, Option.some.injEq] at h
      subst h
      have hall : ∀ i : Fin n, 2 ≤ c.pc i := inv4 (by omega)
      refine ⟨hpcLe, ?_, ?_, ?_, ?_⟩
      · intro _
        dsimp only at *
        rw [incsCount_update_same c.pc j _ (by omega)]
        exact inv2 (by omega)
      · intro hP
        dsimp only at *
        rw [primPc_update_self c j hj] at hP
        omega
      · intro _ i
        dsimp only at *
        by_cases hij : i = j
        · subst hij; rw [Function.update_same]; omega
        · rw [Function.update_noteq hij]; exact hall i
      · intro i hi0 hi4 hpi
        dsimp only at *
        have hij : i ≠ j := by
          intro he; exact hi0 (he ▸ hj)
        rw [Function.update_noteq hij] at hpi
        have h5 := inv5 i hi0 hi4 hpi
        omega
    | resetSync =>
      have hj : j.val = 0 := (hfacts.2.2.2.2.1 rfl).1
      have hk : c.pc j = 4 := (hfacts.2.2.2.2.1 rfl).2
      have hPold : primPc c = 4 := by rw [primPc_eq_pc c j hj]; omega
      simp only [tick_step, hget, Option.some.injEq] at h
      subst h
      have hall : ∀ i : Fin n, 2 ≤ c.pc i := inv4 (by omega)
      refine ⟨hpcLe, ?_, ?_, ?_, ?_⟩
      · intro hP
        dsimp only at *
        rw [primPc_update_self c j hj] at hP
        omega
      · intro _
        rfl
      · intro _ i
        dsimp only at *
        by_cases hij : i = j
        · subst hij; rw [Function.update_same]; omega
        · rw [Function.update_noteq hij]; exact hall i
      · intro i _ _ _
        dsimp only at *
        rw [primPc_update_self c j hj]
        omega
    | waitRelease =>
      have hj : j.val ≠ 0 := (hfacts.2.2.2.2.2.1 rfl).1
      have hj4 : j.val % 4 = 0 := (hfacts.2.2.2.2.2.1 rfl).2.1
      have hk : c.pc j = 2 := (hfacts.2.2.2.2.2.1 rfl).2.2
      simp only [tick_step, hget] at h
      by_cases hg : c.syncflag = 0
      · rw [if_pos hg, Option.some.injEq] at h
        subst h
        have hPold : 5 ≤ primPc c := by
          by_contra hlt5
          have hflag := inv2 (by omega)
          have hone : 1 ≤ incsCount c.pc := incsCount_pos c.pc j (by omega)
          omega
        have hall : ∀ i : Fin n, 2 ≤ c.pc i := inv4 (by omega)
        refine ⟨hpcLe, ?_, ?_, ?_, ?_⟩
        · intro hP
          dsimp only at *
          rw [primPc_update_other c j hj] at hP
          omega
        · intro _
          dsimp only at *
          exact hg
        · intro _ i
          dsimp only at *
          by_cases hij : i = j
          · subst hij; rw [Function.update_same]; omega
          · rw [Function.update_noteq hij]; exact hall i
        · intro i hi0 hi4 hpi
          dsimp only at *
          rw [primPc_update_other c j hj]
          exact hPold
      · rw [if_neg hg] at h
        exact absurd h (by simp)
    | applyMsr =>
      rcases hfacts.2.2.2.2.2.2 rfl with ⟨hj, hk⟩ | ⟨hj, hj4, hk⟩
      · have hPold : primPc c = 5 := by rw [primPc_eq_pc c j hj]; omega
        simp only [tick_step, hget, Option.some.injEq] at h
        subst h
        have hall : ∀ i : Fin n, 2 ≤ c.pc i := inv4 (by omega)
        refine ⟨hpcLe, ?_, ?_, ?_, ?_⟩
        · intro hP
          dsimp only at *
          rw [primPc_update_self c j hj] at hP
          omega
        · intro _
          dsimp only at *
          exact inv3 (by omega)
        · intro _ i
          dsimp only at *
          by_cases hij : i = j
          · subst hij; rw [Function.update_same]; omega
          · rw [Function.update_noteq hij]; exact hall i
        · intro i _ _ _
          dsimp only at *
          rw [primPc_update_self c j hj]
          omega
      · have hPold : 5 ≤ primPc c := inv5 j hj hj4 (by omega)
        simp only [tick_step, hget, Option.some.injEq] at h
        subst h
        have hall : ∀ i : Fin n, 2 ≤ c.pc i := inv4 (by omega)
        refine ⟨hpcLe, ?_, ?_, ?_, ?_⟩
        · intro hP
          dsimp only at *
          rw [primPc_update_other c j hj] at hP
          omega
        · intro _
          dsimp only at *
          exact inv3 (by omega)
        · intro _ i
          dsimp only at *
          by_cases hij : i = j
          · subst hij; rw [Function.update_same]; omega
          · rw [Function.update_noteq hij]; exact hall i
        · intro i hi0 hi4 hpi
          dsimp only at *
          rw [primPc_update_other c j hj]
          exact hPold

/-- The invariant holds at the start of a tick. -/
theorem tick_init_inv (n : ℕ) : TickInv (tick_init n) := by
  have hP : primPc (tick_init n) = 0 := by
    unfold primPc tick_init
    split <;> rfl
  refine ⟨?_, ?_, ?_, ?_, ?_⟩
  · intro i
    simp [tick_init]
  · intro _
    simp [tick_init, incsCount]
  · intro h5
    omega
  · intro h3
    omega
  · intro i _ _ h3
    simp [tick_init] at h3

/-- The invariant is preserved along any schedule. -/
theorem tick_run_inv {n : ℕ} {c c2 : TickCfg n} {tr : List (Fin n)}
    (inv : TickInv c) (h : tick_run c tr = some c2) : TickInv c2 := by
  induction tr generalizing c with
  | nil =>
    simp only [tick_run, Option.some.injEq] at h
    subst h
    exact inv
  | cons i rest ih =>
    simp only [tick_run] at h
    cases hstep : tick_step c i with
    | none => rw [hstep] at h; exact absurd h (by simp)
    | some cmid =>
      rw [hstep] at h
      exact ih (tick_step_inv inv hstep) h

/-- C2.  In the single-tick rendezvous model (each enabled worker executes
its tick body once, in any interleaving, from `syncflag = 0`): whenever
the primary has passed its arrival wait — in particular whenever the tuner
invocation has run — every worker has already published its PMU deltas and
incremented the counter (each worker increments only after its sample, by
program order); a module-lead passes its release wait, and hence starts
its apply phase, only after the primary's tuner invocation and counter
reset have both executed; in a completed tick the primary executed its
whole six-action body — whose single `decideTuner` slot therefore ran
exactly once — and `syncflag` is back at 0 for the next tick.  Since
validity of schedules is prefix-closed and the statement holds for every
reachable configuration, the implications express genuine temporal
ordering: samples before decision, decision before any apply. -/
theorem tick_barrier_orders_phases {n : ℕ} (tr : List (Fin n)) (c : TickCfg n)
    (hrun : tick_run (tick_init n) tr = some c) :
    (3 ≤ primPc c → ∀ i : Fin n, 2 ≤ c.pc i) ∧
    (∀ i : Fin n, i.val ≠ 0 → i.val % 4 = 0 → 3 ≤ c.pc i → 5 ≤ primPc c) ∧
    ((∀ i : Fin n, c.pc i = (tick_prog i.val).length) →
      (∀ i : Fin n, i.val = 0 → c.pc i = 6) ∧ c.syncflag = 0) ∧
    (tick_prog 0).count TickAct.decideTuner = 1 := by
  have inv := tick_run_inv (tick_init_inv n) hrun
  obtain ⟨inv1, inv2, inv3, inv4, inv5⟩ := inv
  refine ⟨inv4, inv5, ?_, by decide⟩
  intro hdone
  constructor
  · intro i hi
    have hd := hdone i
    rw [hi] at hd
    simpa [tick_prog] using hd
  · rcases Nat.eq_zero_or_pos n with hn | hn
    · have h0 : primPc c ≤ 4 := by
        unfold primPc
        rw [dif_neg (by omega)]
        omega
      have hflag := inv2 h0
      have hle := incsCount_le c.pc
      omega
    · have hp : c.pc ⟨0, hn⟩ = 6 := by
        have hd := hdone ⟨0, hn⟩
        rw [hd]
        simp [tick_prog]
      have h5 : 5 ≤ primPc c := by
        rw [primPc_eq_pc c ⟨0, hn⟩ rfl, hp]
        omega
      exact inv3 h5

/-- C2 witness: the five-worker demo schedule completes, ends with
`syncflag = 0`, the primary's six actions and the lead's four actions all
executed, and the ordering properties hold of the reached configuration. -/
theorem tick_barrier_orders_phases_witness :
    tick_run (tick_init 5) tick_demo_schedule = some tick_demo_final ∧
    tick_demo_final.syncflag = 0 ∧
    tick_demo_final.pc 0 = 6 ∧ tick_demo_final.pc 4 = 4 ∧
    ((3 ≤ primPc tick_demo_final → ∀ i : Fin 5, 2 ≤ tick_demo_final.pc i) ∧
     (∀ i : Fin 5, i.val ≠ 0 → i.val % 4 = 0 → 3 ≤ tick_demo_final.pc i →
        5 ≤ primPc tick_demo_final) ∧
     ((∀ i : Fin 5, tick_demo_final.pc i = (tick_prog i.val).length) →
       (∀ i : Fin 5, i.val = 0 → tick_demo_final.pc i = 6) ∧
        tick_demo_final.syncflag = 0) ∧
     (tick_prog 0).count TickAct.decideTuner = 1) :=
  ⟨rfl, rfl, rfl, rfl,
   tick_barrier_orders_phases tick_demo_schedule tick_demo_final rfl⟩
